import Mathlib

/-!
Verification of the git-inquisitor collector (Go) against its design
specification.

Shallow embedding conventions:
- Go `time.Time` values are modelled as `Int` (nanoseconds since the Go zero
  time); `t.IsZero()` is `t = 0` and `a.After(b)` is `a > b`.
- Go maps (`map[string]T`) are modelled as association lists
  `List (String × T)` with `alookup` / `aset`; keys inserted by the code at
  hand are pairwise distinct, so the representation is faithful up to the
  iteration-order nondeterminism Go itself does not guarantee.
- Fallible Go functions returning `(T, error)` become `Except String T`.
- The external go-git facility (blame results, the commit log, tree file
  listings) is passed in as explicit data, per the spec's capability-provider
  contract for the VCS facade.
-/

namespace GI

/-- Go `time.Time`, as nanoseconds since the zero time. -/
abbrev Time := Int

/-- Go `strings.TrimSpace` white-space class (ASCII fragment of Unicode space). -/
def isSpaceChar (c : Char) : Bool :=
  (c = ' ') || (c = '\t') || (c = '\n') || (c = '\r')

/-- Characters of `s` strictly before the first `<`, i.e. Go
`strings.Split(s, "<")[0]` at character level. -/
def beforeLt (cs : List Char) : List Char :=
  match cs with
  | [] => []
  | c :: rest => if c = '<' then [] else c :: beforeLt rest

/-- Go `strings.TrimSpace` on a character list. -/
def trimChars (cs : List Char) : List Char :=
  ((cs.dropWhile isSpaceChar).reverse.dropWhile isSpaceChar).reverse

/-- Contributor display-name extraction used by `GetBlameForFile`
(part_000:178-179): `strings.TrimSpace(strings.Split(line.Author, "<")[0])`. -/
def extractName (author : String) : String :=
  String.mk (trimChars (beforeLt author.data))

/-- Go map lookup `m[k]` on the association-list model. -/
def alookup {α : Type} (m : List (String × α)) (k : String) : Option α :=
  match m with
  | [] => none
  | (k2, v) :: rest => if k2 = k then some v else alookup rest k

/-- Go map assignment `m[k] = v` on the association-list model. -/
def aset {α : Type} (m : List (String × α)) (k : String) (v : α) :
    List (String × α) :=
  match m with
  | [] => [(k, v)]
  | (k2, w) :: rest => if k2 = k then (k2, v) :: rest else (k2, w) :: aset rest k v

/-- Go `m[k]++` on a `map[string]int` (missing key reads as 0). -/
def bump (m : List (String × Nat)) (k : String) : List (String × Nat) :=
  aset m k ((alookup m k).getD 0 + 1)

/-- Sum of the values of a `map[string]int`. -/
def sumValues (m : List (String × Nat)) : Nat :=
  (m.map (fun p => p.2)).sum

/-- One entry of go-git's `object.BlameResult.Lines`. -/
structure BlameLine where
  author : String
  date : Time
  hash : String
deriving DecidableEq

/-- Go-git `plumbing.ZeroHash` rendered as a hash string. -/
def zeroHash : String := "0000000000000000000000000000000000000000"

/-- Per-file result of `GetBlameForFile` (`models.FileBlameStats`). -/
structure FileBlameStats where
  dateIntroduced : Time := 0
  originalAuthor : String := ""
  totalCommits : Nat := 0
  totalLines : Nat := 0
  topContributor : String := ""
  linesByContributor : List (String × Nat) := []
deriving DecidableEq

/-- Mutable loop state of the line scan in `GetBlameForFile`
(part_000:171-196): the tally map, the running total, and the two
provisional fields `originalAuthor` / `lastCommitDate`. -/
structure BlameAcc where
  linesByContributor : List (String × Nat)
  totalLines : Nat
  originalAuthor : String
  lastCommitDate : Time
deriving DecidableEq

/-- Zero values of the loop variables in `GetBlameForFile`. -/
def BlameAcc.init : BlameAcc := ⟨[], 0, "", 0⟩

/-- The `if line.Date.After(lastCommitDate)` update (part_000:193-195). -/
def maxStep (d : Time) (l : BlameLine) : Time :=
  if l.date > d then l.date else d

/-- Body of the `for _, line := range blameResult.Lines` loop in
`GetBlameForFile` (part_000:174-196): skip nil lines and empty authors,
otherwise bump the tally, bump the total, and maintain the provisional
original-author / latest-date fields. -/
def blameStep (st : BlameAcc) (l : Option BlameLine) : BlameAcc :=
  match l with
  | none => st
  | some line =>
    if line.author = "" then st
    else
      let name := extractName line.author
      let tally := bump st.linesByContributor name
      let total := st.totalLines + 1
      let origA := if total = 1 then name else st.originalAuthor
      let lastD := if total = 1 then line.date else st.lastCommitDate
      { linesByContributor := tally, totalLines := total,
        originalAuthor := origA, lastCommitDate := maxStep lastD line }

/-- Two-digit zero-padded rendering of `n < 100`. -/
def pad2 (n : Nat) : String :=
  if n < 10 then "0" ++ toString n else toString n

/-- The `%.2f` percentage in the top-contributor label (part_000:220-221).
The Go code divides float64s; we render the exactly rounded rational
(half away from zero), which matches except on float ulp boundaries.
No claim depends on this string's contents. -/
def formatPercent (maxLines total : Nat) : String :=
  let cents := (maxLines * 10000 + total / 2) / total
  toString (cents / 100) ++ "." ++ pad2 (cents % 100) ++ "%"

/-- The top-contributor scan (part_000:212-219): iterate the tally keeping
the first strictly-larger count. Go iterates the map in unspecified order;
we iterate the association list in insertion order (ties are
nondeterministic in the source, as the spec notes). -/
def topContributorLoop (m : List (String × Nat)) : String × Nat :=
  m.foldl (fun acc p => if p.2 > acc.2 then (p.1, p.2) else acc) ("", 0)

/-- The lines with a non-nil entry and a non-empty raw author string:
exactly the lines the scan in `GetBlameForFile` attributes. -/
def attributedLines (lines : List (Option BlameLine)) : List BlameLine :=
  (lines.filterMap id).filter (fun l => !(l.author = ""))

/-- Embedding of `GetBlameForFile` (part_000:153-226), with the go-git call
`git.Blame(commit, filePath)` abstracted as the `blameResult` argument.
On a blame error the Go function returns the error (the caller then skips
the file); on a nil/empty result it returns zero-valued stats; otherwise it
scans the lines, counts distinct non-zero commit hashes, and renders the
top-contributor label. -/
def getBlameForFile (blameResult : Except String (List (Option BlameLine))) :
    Except String FileBlameStats :=
  match blameResult with
  | .error e => .error e
  | .ok lines =>
    if lines.length = 0 then .ok {}
    else
      let acc := lines.foldl blameStep BlameAcc.init
      let distinct :=
        (((lines.filterMap id).filter (fun l => !(l.hash = zeroHash))).map
          (fun l => l.hash)).dedup
      let top :=
        if acc.totalLines > 0 then
          let tc := topContributorLoop acc.linesByContributor
          tc.1 ++ " (" ++ formatPercent tc.2 acc.totalLines ++ ")"
        else ""
      .ok { dateIntroduced := acc.lastCommitDate,
            originalAuthor := acc.originalAuthor,
            totalCommits := distinct.length,
            totalLines := acc.totalLines,
            topContributor := top,
            linesByContributor := acc.linesByContributor }

/-- Model of `models.FileData`: the per-file summary stored in the dataset. -/
structure FileData where
  dateIntroduced : Time
  originalAuthor : String
  totalCommits : Nat
  totalLines : Nat
  topContributor : String
  linesByContributor : List (String × Nat)
deriving DecidableEq

/-- The field-for-field copy from `FileBlameStats` into `FileData`
performed at collector.go:371-378. -/
def toFileData (s : FileBlameStats) : FileData :=
  ⟨s.dateIntroduced, s.originalAuthor, s.totalCommits, s.totalLines,
    s.topContributor, s.linesByContributor⟩

/-- What `git.Blame(head, path)` returns for each path: the external
blame capability of the VCS facade. -/
abbrev BlameOracle := String → Except String (List (Option BlameLine))

/-- Handling of one worker result in `collectBlameDataByFile`
(collector.go:363-380): a blame error is logged and skipped; a result with
`TotalLines > 0` is stored in the Files map; a zero-line result is dropped. -/
def collectBlameStep (blame : BlameOracle) (files : List (String × FileData))
    (path : String) : List (String × FileData) :=
  match getBlameForFile (blame path) with
  | .error _ => files
  | .ok stats =>
    if stats.totalLines > 0 then aset files path (toFileData stats) else files

/-- Embedding of `collectBlameDataByFile` (collector.go:296-383).  The worker pool blames
every path independently and a single consumer drains the results into the
Files map; since each path is blamed exactly once and map insertion is
order-independent on distinct keys, the concurrent drain is modelled as a
fold over the path list. -/
def collectBlameDataByFile (blame : BlameOracle) (filePaths : List String) :
    List (String × FileData) :=
  filePaths.foldl (collectBlameStep blame) []

/-- Model of `models.Contributor`. -/
structure Contributor where
  identities : List String
  commitCount : Nat
  insertions : Nat
  deletions : Nat
  activeLines : Nat
deriving DecidableEq

/-- The inner sum of `collectActiveLineCountByContributor`
(collector.go:396-401): add `fileData.LinesByContributor[name]` over all
files, counting 0 where the name is absent. -/
def activeLinesFor (files : List (String × FileData)) (name : String) : Nat :=
  files.foldl (fun s p => s + ((alookup p.2.linesByContributor name).getD 0)) 0

/-- Embedding of `collectActiveLineCountByContributor` (collector.go:385-405): for every
contributor in the map, recompute `ActiveLines` from the completed Files
map and store it back. -/
def collectActiveLineCountByContributor
    (contributors : List (String × Contributor))
    (files : List (String × FileData)) : List (String × Contributor) :=
  contributors.map (fun p => (p.1, { p.2 with activeLines := activeLinesFor files p.1 }))

/-- One entry of a commit's tree file iterator (`object.File`), with the
data the collector reads from it: path name, the result of `IsBinary()`
(`none` models the error case, in which go-git returns `false` with the
error), and the content lines from `f.Lines()`. -/
structure TreeFile where
  name : String
  isBinary : Option Bool
  lines : List String
deriving DecidableEq

/-- Embedding of `GetFilePaths` (part_000:116-146): list the tree's file names, skipping
a file exactly when `IsBinary()` succeeds and reports binary
(`err == nil && isBin`). -/
def getFilePaths (tree : List TreeFile) : List String :=
  (tree.filter (fun f => !(f.isBinary = some true))).map (fun f => f.name)

/-- Model of `models.FileCommitStats`. -/
structure FileCommitStats where
  insertions : Nat
  deletions : Nat
  lines : Nat
deriving DecidableEq

/-- Return value of `GetCommitStats`. -/
structure CommitStatsResult where
  insertions : Nat
  deletions : Nat
  filesChanged : List (String × FileCommitStats)
deriving DecidableEq

/-- The zero-parent branch of `GetCommitStats` (part_000:247-268): for an
initial commit, iterate the tree's files; for each file whose `IsBinary()`
result is not binary (`isBin, _ := f.IsBinary(); if !isBin`, so an error
reads as non-binary), add its line count to the commit total and record
per-file stats `(Insertions = lines, Deletions = 0, Lines = lines)`;
deletions of the commit are zero.  The loop body is `initialStatsStep`. -/
def initialStatsStep (acc : Nat × List (String × FileCommitStats))
    (f : TreeFile) : Nat × List (String × FileCommitStats) :=
  if !(f.isBinary.getD false) then
    (acc.1 + f.lines.length,
      aset acc.2 f.name ⟨f.lines.length, 0, f.lines.length⟩)
  else acc

/-- The zero-parent branch of `GetCommitStats`, assembled from the fold of
`initialStatsStep` over the tree (part_000:247-268). -/
def getCommitStatsInitial (tree : List TreeFile) : CommitStatsResult :=
  let r := tree.foldl initialStatsStep (0, [])
  ⟨r.1, 0, r.2⟩

/-- A commit as the History Walker sees it: identity plus committer time. -/
structure Commit where
  hash : String
  committerDate : Time
deriving DecidableEq

/-- Embedding of `IterateCommits` (part_000:93-114): collect the commits yielded by
`repo.Log` with `Order: git.LogOrderCommitterTime` (most recent committer
time first) and reverse the collected list in place to obtain
oldest-to-newest order. The log facility's output is the `logOutput`
argument. -/
def iterateCommits (logOutput : List Commit) : List Commit :=
  logOutput.reverse

/-- Model of `models.CommitDetails`. -/
structure CommitDetails where
  sha : String
  date : Time
  tree : String
  contributor : String
  message : String
deriving DecidableEq

/-- Model of `models.CollectorMetadata`. -/
structure CollectorMetadata where
  inquisitorVersion : String
  dateCollected : Time
  user : String
  hostname : String
  platform : String
  goVersion : String
  gitVersion : String
deriving DecidableEq

/-- Model of `models.RepoMetadata`. -/
structure RepoMetadata where
  url : String
  branch : String
  commit : CommitDetails
deriving DecidableEq

/-- Model of `models.Metadata`. -/
structure Metadata where
  collector : CollectorMetadata
  repo : RepoMetadata
deriving DecidableEq

/-- Model of `models.CommitHistoryItem`. -/
structure CommitHistoryItem where
  commit : String
  parents : List String
  tree : String
  contributor : String
  date : Time
  message : String
  insertions : Nat
  deletions : Nat
  filesChanged : List (String × FileCommitStats)
deriving DecidableEq

/-- Model of `models.CollectedData`: the root aggregate dataset. -/
structure CollectedData where
  metadata : Metadata
  contributors : List (String × Contributor)
  files : List (String × FileData)
  history : List CommitHistoryItem
deriving DecidableEq

/-- One primitive value in the `encoding/gob` stream of the cache record.
gob is self-describing and type-directed; we model the stream at the
granularity of primitive values. -/
inductive Token where
  | str : String → Token
  | nat : Nat → Token
  | int : Int → Token
deriving DecidableEq

/-- gob-encode a string onto the front of a stream. -/
def encString (s : String) (r : List Token) : List Token := Token.str s :: r

/-- gob-encode a `Nat` (Go non-negative int) onto the front of a stream. -/
def encNat (n : Nat) (r : List Token) : List Token := Token.nat n :: r

/-- gob-encode a time value onto the front of a stream. -/
def encInt (i : Int) (r : List Token) : List Token := Token.int i :: r

/-- gob-encode a slice or map: a length header followed by the elements. -/
def encList {α : Type} (f : α → List Token → List Token) (xs : List α)
    (r : List Token) : List Token :=
  Token.nat xs.length :: xs.foldr f r

/-- gob-decode a string from the front of a stream. -/
def decString : List Token → Option (String × List Token)
  | Token.str s :: r => some (s, r)
  | _ => none

/-- gob-decode a `Nat` from the front of a stream. -/
def decNat : List Token → Option (Nat × List Token)
  | Token.nat n :: r => some (n, r)
  | _ => none

/-- gob-decode a time value from the front of a stream. -/
def decInt : List Token → Option (Int × List Token)
  | Token.int i :: r => some (i, r)
  | _ => none

/-- gob-decode `n` consecutive elements. -/
def decListN {α : Type} (dec : List Token → Option (α × List Token)) :
    Nat → List Token → Option (List α × List Token)
  | 0, ts => some ([], ts)
  | n + 1, ts =>
    (dec ts).bind fun p =>
    (decListN dec n p.2).bind fun q =>
    some (p.1 :: q.1, q.2)

/-- gob-decode a slice or map: read the length header, then the elements. -/
def decList {α : Type} (dec : List Token → Option (α × List Token))
    (ts : List Token) : Option (List α × List Token) :=
  (decNat ts).bind fun p => decListN dec p.1 p.2

/-- gob-encode one map entry. -/
def encPair {α : Type} (f : α → List Token → List Token) (p : String × α)
    (r : List Token) : List Token :=
  encString p.1 (f p.2 r)

/-- gob-decode one map entry. -/
def decPair {α : Type} (dec : List Token → Option (α × List Token))
    (ts : List Token) : Option ((String × α) × List Token) :=
  (decString ts).bind fun p =>
  (dec p.2).bind fun q =>
  some ((p.1, q.1), q.2)

/-- gob-encode `models.FileCommitStats`. -/
def encFileCommitStats (x : FileCommitStats) (r : List Token) : List Token :=
  encNat x.insertions (encNat x.deletions (encNat x.lines r))

/-- gob-decode `models.FileCommitStats`. -/
def decFileCommitStats (ts : List Token) :
    Option (FileCommitStats × List Token) :=
  (decNat ts).bind fun p1 =>
  (decNat p1.2).bind fun p2 =>
  (decNat p2.2).bind fun p3 =>
  some (⟨p1.1, p2.1, p3.1⟩, p3.2)

/-- gob-encode `models.FileData`. -/
def encFileData (x : FileData) (r : List Token) : List Token :=
  encInt x.dateIntroduced (encString x.originalAuthor (encNat x.totalCommits
    (encNat x.totalLines (encString x.topContributor
      (encList (encPair encNat) x.linesByContributor r)))))

/-- gob-decode `models.FileData`. -/
def decFileData (ts : List Token) : Option (FileData × List Token) :=
  (decInt ts).bind fun p1 =>
  (decString p1.2).bind fun p2 =>
  (decNat p2.2).bind fun p3 =>
  (decNat p3.2).bind fun p4 =>
  (decString p4.2).bind fun p5 =>
  (decList (decPair decNat) p5.2).bind fun p6 =>
  some (⟨p1.1, p2.1, p3.1, p4.1, p5.1, p6.1⟩, p6.2)

/-- gob-encode `models.Contributor`. -/
def encContributor (x : Contributor) (r : List Token) : List Token :=
  encList encString x.identities (encNat x.commitCount (encNat x.insertions
    (encNat x.deletions (encNat x.activeLines r))))

/-- gob-decode `models.Contributor`. -/
def decContributor (ts : List Token) : Option (Contributor × List Token) :=
  (decList decString ts).bind fun p1 =>
  (decNat p1.2).bind fun p2 =>
  (decNat p2.2).bind fun p3 =>
  (decNat p3.2).bind fun p4 =>
  (decNat p4.2).bind fun p5 =>
  some (⟨p1.1, p2.1, p3.1, p4.1, p5.1⟩, p5.2)

/-- gob-encode `models.CommitDetails`. -/
def encCommitDetails (x : CommitDetails) (r : List Token) : List Token :=
  encString x.sha (encInt x.date (encString x.tree
    (encString x.contributor (encString x.message r))))

/-- gob-decode `models.CommitDetails`. -/
def decCommitDetails (ts : List Token) : Option (CommitDetails × List Token) :=
  (decString ts).bind fun p1 =>
  (decInt p1.2).bind fun p2 =>
  (decString p2.2).bind fun p3 =>
  (decString p3.2).bind fun p4 =>
  (decString p4.2).bind fun p5 =>
  some (⟨p1.1, p2.1, p3.1, p4.1, p5.1⟩, p5.2)

/-- gob-encode `models.CollectorMetadata`. -/
def encCollectorMetadata (x : CollectorMetadata) (r : List Token) : List Token :=
  encString x.inquisitorVersion (encInt x.dateCollected (encString x.user
    (encString x.hostname (encString x.platform
      (encString x.goVersion (encString x.gitVersion r))))))

/-- gob-decode `models.CollectorMetadata`. -/
def decCollectorMetadata (ts : List Token) :
    Option (CollectorMetadata × List Token) :=
  (decString ts).bind fun p1 =>
  (decInt p1.2).bind fun p2 =>
  (decString p2.2).bind fun p3 =>
  (decString p3.2).bind fun p4 =>
  (decString p4.2).bind fun p5 =>
  (decString p5.2).bind fun p6 =>
  (decString p6.2).bind fun p7 =>
  some (⟨p1.1, p2.1, p3.1, p4.1, p5.1, p6.1, p7.1⟩, p7.2)

/-- gob-encode `models.RepoMetadata`. -/
def encRepoMetadata (x : RepoMetadata) (r : List Token) : List Token :=
  encString x.url (encString x.branch (encCommitDetails x.commit r))

/-- gob-decode `models.RepoMetadata`. -/
def decRepoMetadata (ts : List Token) : Option (RepoMetadata × List Token) :=
  (decString ts).bind fun p1 =>
  (decString p1.2).bind fun p2 =>
  (decCommitDetails p2.2).bind fun p3 =>
  some (⟨p1.1, p2.1, p3.1⟩, p3.2)

/-- gob-encode `models.Metadata`. -/
def encMetadata (x : Metadata) (r : List Token) : List Token :=
  encCollectorMetadata x.collector (encRepoMetadata x.repo r)

/-- gob-decode `models.Metadata`. -/
def decMetadata (ts : List Token) : Option (Metadata × List Token) :=
  (decCollectorMetadata ts).bind fun p1 =>
  (decRepoMetadata p1.2).bind fun p2 =>
  some (⟨p1.1, p2.1⟩, p2.2)

/-- gob-encode `models.CommitHistoryItem`. -/
def encCommitHistoryItem (x : CommitHistoryItem) (r : List Token) : List Token :=
  encString x.commit (encList encString x.parents (encString x.tree
    (encString x.contributor (encInt x.date (encString x.message
      (encNat x.insertions (encNat x.deletions
        (encList (encPair encFileCommitStats) x.filesChanged r))))))))

/-- gob-decode `models.CommitHistoryItem`. -/
def decCommitHistoryItem (ts : List Token) :
    Option (CommitHistoryItem × List Token) :=
  (decString ts).bind fun p1 =>
  (decList decString p1.2).bind fun p2 =>
  (decString p2.2).bind fun p3 =>
  (decString p3.2).bind fun p4 =>
  (decInt p4.2).bind fun p5 =>
  (decString p5.2).bind fun p6 =>
  (decNat p6.2).bind fun p7 =>
  (decNat p7.2).bind fun p8 =>
  (decList (decPair decFileCommitStats) p8.2).bind fun p9 =>
  some (⟨p1.1, p2.1, p3.1, p4.1, p5.1, p6.1, p7.1, p8.1, p9.1⟩, p9.2)

/-- gob-encode `models.CollectedData`: what `SaveCache` feeds the encoder
(collector.go:84-85). -/
def encCollectedData (x : CollectedData) (r : List Token) : List Token :=
  encMetadata x.metadata (encList (encPair encContributor) x.contributors
    (encList (encPair encFileData) x.files
      (encList encCommitHistoryItem x.history r)))

/-- gob-decode `models.CollectedData`: what `LoadCache`'s decoder produces
(collector.go:131-134). Decoding into the collector's cleared `Data` value
replaces every field with the decoded one, so the merge semantics of gob
reduce to returning the decoded value. -/
def decCollectedData (ts : List Token) : Option (CollectedData × List Token) :=
  (decMetadata ts).bind fun p1 =>
  (decList (decPair decContributor) p1.2).bind fun p2 =>
  (decList (decPair decFileData) p2.2).bind fun p3 =>
  (decList decCommitHistoryItem p3.2).bind fun p4 =>
  some (⟨p1.1, p2.1, p3.1, p4.1⟩, p4.2)

/-- The cache record on disk: a zip archive, i.e. a list of
(entry name, entry payload). -/
abbrev Archive := List (String × List Token)

/-- Embedding of `SaveCache` (collector.go:77-110): gob-encode the dataset and store it
as the single zip entry named `data.gob`. -/
def saveCache (d : CollectedData) : Archive :=
  [("data.gob", encCollectedData d [])]

/-- Embedding of `LoadCache` (collector.go:113-137): reject an empty archive or one whose
first entry is not named `data.gob`, then gob-decode the payload into the
cleared in-memory dataset. -/
def loadCache (ar : Archive) : Except String CollectedData :=
  match ar with
  | [] => .error ("invalid cache file format: data.gob not found")
  | (name, payload) :: _ =>
    if name = "data.gob" then
      match decCollectedData payload with
      | some p => .ok p.1
      | none => .error ("failed to gob-decode data")
    else .error ("invalid cache file format: data.gob not found")

/-- Outcome of Collect's cache-or-recompute decision. -/
inductive CollectOutcome where
  | fromCache : CollectedData → CollectOutcome
  | recomputed : CollectOutcome
deriving DecidableEq

/-- The cache-or-recompute decision at the top of `Collect`
(collector.go:141-156): on a cache hit, attempt `LoadCache`; accept the
loaded dataset only when its HEAD commit SHA is non-empty and its
collection timestamp is non-zero, otherwise fall through to full
recomputation; a load error likewise falls through. -/
def collectCacheDecision (cacheExists : Bool) (ar : Archive) : CollectOutcome :=
  if cacheExists then
    match loadCache ar with
    | .ok d =>
      if d.metadata.repo.commit.sha = "" ∨ d.metadata.collector.dateCollected = 0 then
        .recomputed
      else .fromCache d
    | .error _ => .recomputed
  else .recomputed

/-! ### Round-trip lemmas for the cache codec -/

theorem decString_enc (s : String) (r : List Token) :
    decString (encString s r) = some (s, r) := rfl

theorem decNat_enc (n : Nat) (r : List Token) :
    decNat (encNat n r) = some (n, r) := rfl

theorem decInt_enc (i : Int) (r : List Token) :
    decInt (encInt i r) = some (i, r) := rfl

theorem decListN_enc {α : Type} (dec : List Token → Option (α × List Token))
    (f : α → List Token → List Token)
    (h : ∀ x r, dec (f x r) = some (x, r)) :
    ∀ (xs : List α) (r : List Token),
      decListN dec xs.length (xs.foldr f r) = some (xs, r) := by
  intro xs
  induction xs with
  | nil => intro r; rfl
  | cons x xs ih => intro r; simp [decListN, h, ih]

theorem decList_enc {α : Type} (dec : List Token → Option (α × List Token))
    (f : α → List Token → List Token)
    (h : ∀ x r, dec (f x r) = some (x, r)) (xs : List α) (r : List Token) :
    decList dec (encList f xs r) = some (xs, r) := by
  simp [decList, encList, decNat, decListN_enc dec f h]

theorem decPair_enc {α : Type} (dec : List Token → Option (α × List Token))
    (f : α → List Token → List Token)
    (h : ∀ x r, dec (f x r) = some (x, r)) (p : String × α) (r : List Token) :
    decPair dec (encPair f p r) = some (p, r) := by
  simp [decPair, encPair, encString, decString, h]

theorem decFileCommitStats_enc (x : FileCommitStats) (r : List Token) :
    decFileCommitStats (encFileCommitStats x r) = some (x, r) := rfl

theorem decFileData_enc (x : FileData) (r : List Token) :
    decFileData (encFileData x r) = some (x, r) := by
  simp only [decFileData, encFileData, decInt_enc, decString_enc, decNat_enc,
    decList_enc (decPair decNat) (encPair encNat)
      (decPair_enc decNat encNat decNat_enc),
    Option.some_bind]

theorem decContributor_enc (x : Contributor) (r : List Token) :
    decContributor (encContributor x r) = some (x, r) := by
  simp only [decContributor, encContributor, decNat_enc,
    decList_enc decString encString decString_enc, Option.some_bind]

theorem decCommitDetails_enc (x : CommitDetails) (r : List Token) :
    decCommitDetails (encCommitDetails x r) = some (x, r) := rfl

theorem decCollectorMetadata_enc (x : CollectorMetadata) (r : List Token) :
    decCollectorMetadata (encCollectorMetadata x r) = some (x, r) := rfl

theorem decRepoMetadata_enc (x : RepoMetadata) (r : List Token) :
    decRepoMetadata (encRepoMetadata x r) = some (x, r) := rfl

theorem decMetadata_enc (x : Metadata) (r : List Token) :
    decMetadata (encMetadata x r) = some (x, r) := rfl

theorem decCommitHistoryItem_enc (x : CommitHistoryItem) (r : List Token) :
    decCommitHistoryItem (encCommitHistoryItem x r) = some (x, r) := by
  simp only [decCommitHistoryItem, encCommitHistoryItem, decInt_enc,
    decString_enc, decNat_enc,
    decList_enc decString encString decString_enc,
    decList_enc (decPair decFileCommitStats) (encPair encFileCommitStats)
      (decPair_enc decFileCommitStats encFileCommitStats decFileCommitStats_enc),
    Option.some_bind]

theorem decCollectedData_enc (x : CollectedData) (r : List Token) :
    decCollectedData (encCollectedData x r) = some (x, r) := by
  simp only [decCollectedData, encCollectedData, decMetadata_enc,
    decList_enc (decPair decContributor) (encPair encContributor)
      (decPair_enc decContributor encContributor decContributor_enc),
    decList_enc (decPair decFileData) (encPair encFileData)
      (decPair_enc decFileData encFileData decFileData_enc),
    decList_enc decCommitHistoryItem encCommitHistoryItem decCommitHistoryItem_enc,
    Option.some_bind]

/-- Claim C6: saving a collected dataset to the cache and loading it back
into a cleared in-memory state yields a dataset structurally equal, field
for field, to the original (here including the collection timestamp, which
the round trip in fact preserves — the claim's exclusion of it is a
weaker statement). -/
theorem cacheRoundTrip (d : CollectedData) : loadCache (saveCache d) = .ok d := by
  simp [saveCache, loadCache, decCollectedData_enc]

theorem cacheRoundTrip_witness :
    loadCache (saveCache
      ⟨⟨⟨"0.1.0-go", 5, "u", "host", "linux/amd64", "go1", "go-git (pure Go)"⟩,
        ⟨"url", "main", ⟨"abc", 2, "t", "c", "m"⟩⟩⟩,
        [("Alice", ⟨["alice@x"], 1, 2, 3, 4⟩)],
        [("f.go", ⟨9, "Alice", 1, 1, "Alice (100.00%)", [("Alice", 1)]⟩)],
        [⟨"abc", [], "t", "c", 2, "m", 1, 0, [("f.go", ⟨1, 0, 1⟩)]⟩]⟩) =
    .ok
      ⟨⟨⟨"0.1.0-go", 5, "u", "host", "linux/amd64", "go1", "go-git (pure Go)"⟩,
        ⟨"url", "main", ⟨"abc", 2, "t", "c", "m"⟩⟩⟩,
        [("Alice", ⟨["alice@x"], 1, 2, 3, 4⟩)],
        [("f.go", ⟨9, "Alice", 1, 1, "Alice (100.00%)", [("Alice", 1)]⟩)],
        [⟨"abc", [], "t", "c", 2, "m", 1, 0, [("f.go", ⟨1, 0, 1⟩)]⟩]⟩ :=
  cacheRoundTrip
    ⟨⟨⟨"0.1.0-go", 5, "u", "host", "linux/amd64", "go1", "go-git (pure Go)"⟩,
      ⟨"url", "main", ⟨"abc", 2, "t", "c", "m"⟩⟩⟩,
      [("Alice", ⟨["alice@x"], 1, 2, 3, 4⟩)],
      [("f.go", ⟨9, "Alice", 1, 1, "Alice (100.00%)", [("Alice", 1)]⟩)],
      [⟨"abc", [], "t", "c", 2, "m", 1, 0, [("f.go", ⟨1, 0, 1⟩)]⟩]⟩

/-! ### Association-list map lemmas -/

theorem alookup_aset_self {α : Type} (m : List (String × α)) (k : String)
    (v : α) : alookup (aset m k v) k = some v := by
  induction m with
  | nil => simp [aset, alookup]
  | cons p rest ih =>
    by_cases h : p.1 = k
    · simp [aset, alookup, h]
    · simp [aset, alookup, h, ih]

theorem alookup_aset_ne {α : Type} (m : List (String × α)) (k k2 : String)
    (v : α) (h : k ≠ k2) : alookup (aset m k v) k2 = alookup m k2 := by
  induction m with
  | nil => simp [aset, alookup, h]
  | cons p rest ih =>
    by_cases hp : p.1 = k
    · simp [aset, alookup, hp, h]
    · simp [aset, alookup, hp, ih]

theorem mem_aset {α : Type} {m : List (String × α)} {k : String} {v : α}
    {q : String × α} (h : q ∈ aset m k v) : q ∈ m ∨ q = (k, v) := by
  induction m with
  | nil => simp [aset] at h; right; exact h
  | cons p rest ih =>
    by_cases hp : p.1 = k
    · simp only [aset, if_pos hp] at h
      rcases List.mem_cons.mp h with h1 | h1
      · right; rw [h1, hp]
      · left; exact List.mem_cons_of_mem _ h1
    · simp only [aset, if_neg hp] at h
      rcases List.mem_cons.mp h with h1 | h1
      · left; rw [h1]; exact List.mem_cons_self _ _
      · rcases ih h1 with h2 | h2
        · left; exact List.mem_cons_of_mem _ h2
        · right; exact h2

theorem sumValues_cons (p : String × Nat) (m : List (String × Nat)) :
    sumValues (p :: m) = p.2 + sumValues m := by
  simp [sumValues]

theorem sumValues_bump (m : List (String × Nat)) (k : String) :
    sumValues (bump m k) = sumValues m + 1 := by
  induction m with
  | nil => rfl
  | cons p rest ih =>
    by_cases h : p.1 = k
    · simp only [bump, aset, alookup, if_pos h, sumValues_cons,
        Option.getD_some]
      omega
    · simp only [bump, aset, alookup, if_neg h, sumValues_cons] at *
      omega

/-! ### Blame aggregation: the tally/total invariant (C1) -/

theorem blameStep_sum (st : BlameAcc) (l : Option BlameLine)
    (h : sumValues st.linesByContributor = st.totalLines) :
    sumValues (blameStep st l).linesByContributor =
      (blameStep st l).totalLines := by
  match l with
  | none => exact h
  | some line =>
    by_cases ha : line.author = "" <;>
      simp [blameStep, ha, sumValues_bump, h]

theorem foldl_blameStep_sum (lines : List (Option BlameLine)) (st : BlameAcc)
    (h : sumValues st.linesByContributor = st.totalLines) :
    sumValues (lines.foldl blameStep st).linesByContributor =
      (lines.foldl blameStep st).totalLines := by
  induction lines generalizing st with
  | nil => exact h
  | cons l rest ih => exact ih _ (blameStep_sum st l h)

theorem getBlameForFile_sum (br : Except String (List (Option BlameLine)))
    (s : FileBlameStats) (h : getBlameForFile br = .ok s) :
    sumValues s.linesByContributor = s.totalLines := by
  match br with
  | .error e => simp [getBlameForFile] at h
  | .ok lines =>
    by_cases hl : lines.length = 0
    · simp only [getBlameForFile, if_pos hl, Except.ok.injEq] at h
      rw [← h]; rfl
    · simp only [getBlameForFile, if_neg hl, Except.ok.injEq] at h
      rw [← h]
      exact foldl_blameStep_sum lines BlameAcc.init rfl

theorem mem_foldl_collect {P : FileData → Prop} (blame : BlameOracle)
    (paths : List String) (init : List (String × FileData))
    (hinit : ∀ q ∈ init, P q.2)
    (hok : ∀ path s, getBlameForFile (blame path) = .ok s → P (toFileData s)) :
    ∀ q ∈ paths.foldl (collectBlameStep blame) init, P q.2 := by
  induction paths generalizing init with
  | nil => exact hinit
  | cons p rest ih =>
    intro q hq
    rw [List.foldl_cons] at hq
    refine ih (collectBlameStep blame init p) ?_ q hq
    intro q2 hq2
    unfold collectBlameStep at hq2
    cases hb : getBlameForFile (blame p) with
    | error e => simp only [hb] at hq2; exact hinit q2 hq2
    | ok s =>
      simp only [hb] at hq2
      by_cases hpos : s.totalLines > 0
      · rw [if_pos hpos] at hq2
        rcases mem_aset hq2 with h1 | h2
        · exact hinit q2 h1
        · rw [h2]; exact hok p s hb
      · rw [if_neg hpos] at hq2; exact hinit q2 hq2

/-- Claim C1: every FileSummary the Blame Aggregator stores in the
dataset's Files map has the sum of its LinesByContributor values equal to
its TotalLines field. -/
theorem filesMapSumInvariant (blame : BlameOracle) (paths : List String)
    (p : String) (fd : FileData)
    (h : (p, fd) ∈ collectBlameDataByFile blame paths) :
    sumValues fd.linesByContributor = fd.totalLines := by
  have hall := mem_foldl_collect
    (P := fun fd => sumValues fd.linesByContributor = fd.totalLines)
    blame paths [] (by intro q hq; cases hq)
    (by intro path s hs; exact getBlameForFile_sum (blame path) s hs)
  exact hall (p, fd) h

/-- Concrete evaluation of `filesMapSumInvariant`: a single blamable file
with three attributed lines. -/
def wBlame : BlameOracle := fun p =>
  if p = "a.txt" then
    .ok [some ⟨"Alice <alice@x>", 100, "h1"⟩, some ⟨"Bob <bob@x>", 200, "h2"⟩,
         some ⟨"Alice <alice@x>", 150, "h1"⟩]
  else .error ("unblamable")

theorem filesMapSumInvariant_witness :
    sumValues [("Alice", 2), ("Bob", 1)] = 3 :=
  filesMapSumInvariant wBlame ["a.txt"] "a.txt"
    ⟨200, "Alice", 2, 3, "Alice (66.67%)", [("Alice", 2), ("Bob", 1)]⟩
    (by decide)

/-! ### Reducing phase: active-line consistency (C2) -/

theorem foldl_add_eq_sum {α : Type} (l : List α) (f : α → Nat) (n : Nat) :
    l.foldl (fun s x => s + f x) n = n + (l.map f).sum := by
  induction l generalizing n with
  | nil => simp
  | cons x rest ih =>
    rw [List.foldl_cons, ih, List.map_cons, List.sum_cons]
    omega

theorem activeLinesFor_eq_sum (files : List (String × FileData))
    (name : String) :
    activeLinesFor files name =
      (files.map (fun p => (alookup p.2.linesByContributor name).getD 0)).sum := by
  unfold activeLinesFor
  rw [foldl_add_eq_sum, Nat.zero_add]

/-- Claim C2: after the Reducing pass completes, every contributor in the
Contributors map has ActiveLines equal to the sum, over every FileSummary
in Files, of the line count recorded for that contributor's name (zero
when the name is absent from a file's map). -/
theorem activeLinesConsistency (contributors : List (String × Contributor))
    (files : List (String × FileData)) (name : String) (c : Contributor)
    (h : (name, c) ∈ collectActiveLineCountByContributor contributors files) :
    c.activeLines =
      (files.map (fun p => (alookup p.2.linesByContributor name).getD 0)).sum := by
  unfold collectActiveLineCountByContributor at h
  rcases List.mem_map.mp h with ⟨q, _, hq⟩
  have h1 : q.1 = name := congrArg Prod.fst hq
  have h2 : { q.2 with activeLines := activeLinesFor files q.1 } = c :=
    congrArg Prod.snd hq
  rw [← h2]
  show activeLinesFor files q.1 = _
  rw [h1, activeLinesFor_eq_sum]

theorem activeLinesConsistency_witness :
    (⟨["alice@x"], 2, 5, 1, 3⟩ : Contributor).activeLines =
      (([("a.txt", (⟨100, "Alice", 1, 3, "Alice (100.00%)",
          [("Alice", 3)]⟩ : FileData))]).map
        (fun p => (alookup p.2.linesByContributor "Alice").getD 0)).sum :=
  activeLinesConsistency [("Alice", ⟨["alice@x"], 2, 5, 1, 0⟩)]
    [("a.txt", ⟨100, "Alice", 1, 3, "Alice (100.00%)", [("Alice", 3)]⟩)]
    "Alice" ⟨["alice@x"], 2, 5, 1, 3⟩ (by decide)

/-! ### Blame scan: skipped lines and the attributed-line view (C10, C3, C8) -/

theorem foldl_blameStep_eq_attributed (lines : List (Option BlameLine))
    (st : BlameAcc) :
    lines.foldl blameStep st =
      (attributedLines lines).foldl (fun st l => blameStep st (some l)) st := by
  induction lines generalizing st with
  | nil => rfl
  | cons l rest ih =>
    cases l with
    | none =>
      simp only [attributedLines, List.filterMap_cons_none, List.foldl_cons]
      exact ih st
    | some b =>
      by_cases hb : b.author = ""
      · simp only [attributedLines, List.filterMap_cons_some, id_eq,
          List.filter_cons, hb, List.foldl_cons]
        have hstep : blameStep st (some b) = st := by
          simp [blameStep, hb]
        rw [hstep]
        simpa [attributedLines, hb] using ih st
      · simp only [attributedLines, List.filterMap_cons_some, id_eq,
          List.filter_cons, hb, List.foldl_cons]
        simpa [attributedLines, hb] using ih (blameStep st (some b))

theorem alookup_collect_skip (blame : BlameOracle) (paths : List String)
    (p : String) (init : List (String × FileData))
    (h : ∀ s, getBlameForFile (blame p) = .ok s → ¬ 0 < s.totalLines) :
    alookup (paths.foldl (collectBlameStep blame) init) p = alookup init p := by
  induction paths generalizing init with
  | nil => rfl
  | cons q rest ih =>
    rw [List.foldl_cons, ih]
    unfold collectBlameStep
    split
    · rfl
    · rename_i s hb
      split
      · rename_i hpos
        by_cases hqp : q = p
        · subst hqp
          exact absurd hpos (h s hb)
        · exact alookup_aset_ne init q p (toFileData s) hqp
      · rfl

/-- Claim C10: nil blame lines and lines with an empty raw author string
are skipped entirely — they change neither the tally nor the total — so a
file whose blame yields only such lines ends with TotalLines = 0, an empty
tally, and no entry in the dataset's Files map. -/
theorem unattributableLinesSkipped (blame : BlameOracle) (paths : List String)
    (p : String) (lines : List (Option BlameLine))
    (hb : blame p = .ok lines)
    (hall : attributedLines lines = []) :
    (∀ st, blameStep st none = st) ∧
    (∀ (st : BlameAcc) (b : BlameLine), b.author = "" → blameStep st (some b) = st) ∧
    (∃ s, getBlameForFile (.ok lines) = .ok s ∧
      s.totalLines = 0 ∧ s.linesByContributor = []) ∧
    alookup (collectBlameDataByFile blame paths) p = none := by
  have hacc : ∀ st : BlameAcc, lines.foldl blameStep st = st := by
    intro st
    rw [foldl_blameStep_eq_attributed, hall]
    rfl
  have hstats : ∃ s, getBlameForFile (.ok lines) = .ok s ∧
      s.totalLines = 0 ∧ s.linesByContributor = [] := by
    by_cases hl : lines.length = 0
    · exact ⟨{}, by simp [getBlameForFile, hl], rfl, rfl⟩
    · simp only [getBlameForFile, if_neg hl]
      refine ⟨_, rfl, ?_, ?_⟩
      · show (lines.foldl blameStep BlameAcc.init).totalLines = 0
        rw [hacc]
        rfl
      · show (lines.foldl blameStep BlameAcc.init).linesByContributor = []
        rw [hacc]
        rfl
  refine ⟨fun st => rfl, fun st b hb2 => by simp [blameStep, hb2], hstats, ?_⟩
  have hskip : ∀ s, getBlameForFile (blame p) = .ok s → ¬ 0 < s.totalLines := by
    intro s hs
    rcases hstats with ⟨s2, hs2, hz, _⟩
    rw [hb] at hs
    have heq : s2 = s := Except.ok.inj (hs2.symm.trans hs)
    rw [← heq, hz]
    omega
  exact alookup_collect_skip blame paths p [] hskip

/-- Concrete evaluation input for `unattributableLinesSkipped`: a blame
result consisting of one nil line and one empty-author line. -/
def wBlame10 : BlameOracle := fun _ =>
  .ok [none, some ⟨"", 7, "h3"⟩]

theorem unattributableLinesSkipped_witness :
    (∀ st, blameStep st none = st) ∧
    (∀ (st : BlameAcc) (b : BlameLine), b.author = "" → blameStep st (some b) = st) ∧
    (∃ s, getBlameForFile (.ok [none, some ⟨"", 7, "h3"⟩]) = .ok s ∧
      s.totalLines = 0 ∧ s.linesByContributor = []) ∧
    alookup (collectBlameDataByFile wBlame10 ["f"]) "f" = none :=
  unattributableLinesSkipped wBlame10 ["f"] "f" [none, some ⟨"", 7, "h3"⟩]
    rfl (by decide)

/-! ### Blame Aggregator fault tolerance (C3) -/

theorem alookup_foldl_isSome (blame : BlameOracle) (paths : List String)
    (p : String) (init : List (String × FileData))
    (h : (alookup init p).isSome) :
    (alookup (paths.foldl (collectBlameStep blame) init) p).isSome := by
  induction paths generalizing init with
  | nil => exact h
  | cons q rest ih =>
    rw [List.foldl_cons]
    refine ih (collectBlameStep blame init q) ?_
    unfold collectBlameStep
    split
    · exact h
    · rename_i s hb
      split
      · by_cases hqp : q = p
        · subst hqp
          rw [alookup_aset_self]
          rfl
        · rw [alookup_aset_ne init q p (toFileData s) hqp]
          exact h
      · exact h

theorem alookup_collect_of_ok (blame : BlameOracle) (paths : List String)
    (p : String) (init : List (String × FileData)) (s : FileBlameStats)
    (hp : p ∈ paths) (hs : getBlameForFile (blame p) = .ok s)
    (hpos : 0 < s.totalLines) :
    (alookup (paths.foldl (collectBlameStep blame) init) p).isSome := by
  induction paths generalizing init with
  | nil => cases hp
  | cons q rest ih =>
    rw [List.foldl_cons]
    by_cases hqp : q = p
    · subst hqp
      refine alookup_foldl_isSome blame rest q (collectBlameStep blame init q) ?_
      unfold collectBlameStep
      rw [hs]
      show (alookup (if s.totalLines > 0 then aset init q (toFileData s) else init) q).isSome = true
      rw [if_pos hpos, alookup_aset_self]
      rfl
    · rcases List.mem_cons.mp hp with h1 | h1
      · exact absurd h1.symm hqp
      · exact ih (collectBlameStep blame init q) h1

/-- Claim C3: a per-file blame failure is never fatal — the Blame
Aggregator still completes, every other path that blames successfully
with at least one attributable line gets a FileSummary in the Files map,
and only the failing path is omitted. -/
theorem blameFaultTolerance (blame : BlameOracle) (paths : List String)
    (pf : String) (e : String)
    (hpf : pf ∈ paths) (herr : blame pf = .error e)
    (hok : ∀ p ∈ paths, p ≠ pf →
      ∃ s, getBlameForFile (blame p) = .ok s ∧ 0 < s.totalLines) :
    (∀ p ∈ paths, p ≠ pf →
      ∃ fd, alookup (collectBlameDataByFile blame paths) p = some fd) ∧
    alookup (collectBlameDataByFile blame paths) pf = none := by
  constructor
  · intro p hp hne
    rcases hok p hp hne with ⟨s, hs, hpos⟩
    have := alookup_collect_of_ok blame paths p [] s hp hs hpos
    exact Option.isSome_iff_exists.mp this
  · unfold collectBlameDataByFile
    rw [alookup_collect_skip blame paths pf []]
    · rfl
    · intro s hs
      rw [herr] at hs
      simp [getBlameForFile] at hs

/-- Concrete evaluation input for `blameFaultTolerance`: one blamable path
and one deliberately unblamable path. -/
def wBlame3 : BlameOracle := fun p =>
  if p = "bad" then .error ("no blame")
  else .ok [some ⟨"Al", 5, "h1"⟩]

theorem blameFaultTolerance_witness :
    (∀ p ∈ ["good", "bad"], p ≠ "bad" →
      ∃ fd, alookup (collectBlameDataByFile wBlame3 ["good", "bad"]) p = some fd) ∧
    alookup (collectBlameDataByFile wBlame3 ["good", "bad"]) "bad" = none :=
  blameFaultTolerance wBlame3 ["good", "bad"] "bad" "no blame" (by decide) rfl
    (by
      intro p hp hne
      fin_cases hp
      · exact ⟨⟨5, "Al", 1, 1, "Al (100.00%)", [("Al", 1)]⟩, rfl, by decide⟩
      · exact absurd rfl hne)

/-! ### Provisional original-author and latest-date tracking (C8) -/

theorem blameStep_attr (st : BlameAcc) (l : BlameLine) (hl : ¬ l.author = "")
    (hne : st.totalLines ≠ 0) :
    blameStep st (some l) =
      { linesByContributor := bump st.linesByContributor (extractName l.author),
        totalLines := st.totalLines + 1,
        originalAuthor := st.originalAuthor,
        lastCommitDate := maxStep st.lastCommitDate l } := by
  have h1 : ¬ st.totalLines + 1 = 1 := by omega
  simp [blameStep, hl, h1]

theorem foldl_attr_fields (rest : List BlameLine) (st : BlameAcc)
    (hne : st.totalLines ≠ 0) (hall : ∀ l ∈ rest, ¬ l.author = "") :
    (rest.foldl (fun st l => blameStep st (some l)) st).originalAuthor =
        st.originalAuthor ∧
    (rest.foldl (fun st l => blameStep st (some l)) st).lastCommitDate =
        rest.foldl maxStep st.lastCommitDate := by
  induction rest generalizing st with
  | nil => exact ⟨rfl, rfl⟩
  | cons l rest ih =>
    have hl : ¬ l.author = "" := hall l (List.mem_cons_self l rest)
    rw [List.foldl_cons, List.foldl_cons, blameStep_attr st l hl hne]
    exact ih _ (by show st.totalLines + 1 ≠ 0; exact Nat.succ_ne_zero _)
      (fun x hx => hall x (List.mem_cons_of_mem l hx))

theorem foldl_attr_init (a : BlameLine) (rest : List BlameLine)
    (ha : ¬ a.author = "") (hall : ∀ l ∈ rest, ¬ l.author = "") :
    ((a :: rest).foldl (fun st l => blameStep st (some l)) BlameAcc.init).originalAuthor =
        extractName a.author ∧
    ((a :: rest).foldl (fun st l => blameStep st (some l)) BlameAcc.init).lastCommitDate =
        rest.foldl maxStep a.date := by
  rw [List.foldl_cons]
  have hfirst : blameStep BlameAcc.init (some a) =
      { linesByContributor := bump [] (extractName a.author),
        totalLines := 1,
        originalAuthor := extractName a.author,
        lastCommitDate := a.date } := by
    simp [blameStep, ha, BlameAcc.init, maxStep]
  rw [hfirst]
  exact foldl_attr_fields rest _ (by simp) hall

theorem foldl_maxStep_mem (d0 : Time) (ds : List BlameLine) :
    ds.foldl maxStep d0 = d0 ∨
      ds.foldl maxStep d0 ∈ ds.map (fun l => l.date) := by
  induction ds generalizing d0 with
  | nil => left; rfl
  | cons l rest ih =>
    rw [List.foldl_cons]
    rcases ih (maxStep d0 l) with h | h
    · rw [h]
      unfold maxStep
      split
      · right; simp
      · left; rfl
    · right
      rw [List.map_cons]
      exact List.mem_cons_of_mem _ h

theorem le_foldl_maxStep (d0 : Time) (ds : List BlameLine) :
    d0 ≤ ds.foldl maxStep d0 ∧ ∀ l ∈ ds, l.date ≤ ds.foldl maxStep d0 := by
  induction ds generalizing d0 with
  | nil => exact ⟨le_refl d0, by simp⟩
  | cons l rest ih =>
    rw [List.foldl_cons]
    have h1 : d0 ≤ maxStep d0 l := by
      unfold maxStep
      split
      · rename_i h
        exact le_of_lt h
      · exact le_refl d0
    have h2 : l.date ≤ maxStep d0 l := by
      unfold maxStep
      split
      · exact le_refl _
      · rename_i h
        exact le_of_not_lt h
    obtain ⟨ha, hb⟩ := ih (maxStep d0 l)
    refine ⟨le_trans h1 ha, ?_⟩
    intro x hx
    rcases List.mem_cons.mp hx with h3 | h3
    · rw [h3]; exact le_trans h2 ha
    · exact hb x h3

theorem mem_attributedLines (lines : List (Option BlameLine)) :
    ∀ l ∈ attributedLines lines, ¬ l.author = "" := by
  intro l hl
  have := List.of_mem_filter hl
  simpa using this

/-- Claim C8: for a file whose blame result has at least one attributable
line, DateIntroduced equals the latest commit timestamp among all
attributed blame lines and OriginalAuthor is the contributor name of the
first attributed line encountered. -/
theorem dateIntroducedLatest (lines : List (Option BlameLine))
    (s : FileBlameStats) (hne : attributedLines lines ≠ [])
    (hs : getBlameForFile (.ok lines) = .ok s) :
    s.originalAuthor = extractName ((attributedLines lines).head hne).author ∧
    s.dateIntroduced ∈ (attributedLines lines).map (fun l => l.date) ∧
    ∀ l ∈ attributedLines lines, l.date ≤ s.dateIntroduced := by
  have hlines : ¬ lines.length = 0 := by
    intro h0
    rw [List.length_eq_zero] at h0
    rw [h0] at hne
    exact hne rfl
  simp only [getBlameForFile, if_neg hlines, Except.ok.injEq] at hs
  obtain ⟨a, rest, hcons⟩ : ∃ a rest, attributedLines lines = a :: rest := by
    cases hatt : attributedLines lines with
    | nil => exact absurd hatt hne
    | cons a rest => exact ⟨a, rest, rfl⟩
  have hall := mem_attributedLines lines
  have ha : ¬ a.author = "" := hall a (by rw [hcons]; exact List.mem_cons_self a rest)
  have hrest : ∀ l ∈ rest, ¬ l.author = "" := by
    intro l hl
    exact hall l (by rw [hcons]; exact List.mem_cons_of_mem a hl)
  have hchar := foldl_attr_init a rest ha hrest
  have hfold : lines.foldl blameStep BlameAcc.init =
      (a :: rest).foldl (fun st l => blameStep st (some l)) BlameAcc.init := by
    rw [foldl_blameStep_eq_attributed, hcons]
  have horig : s.originalAuthor = extractName a.author := by
    rw [← hs]
    show (lines.foldl blameStep BlameAcc.init).originalAuthor = _
    rw [hfold]
    exact hchar.1
  have hdate : s.dateIntroduced = rest.foldl maxStep a.date := by
    rw [← hs]
    show (lines.foldl blameStep BlameAcc.init).lastCommitDate = _
    rw [hfold]
    exact hchar.2
  have hhead : (attributedLines lines).head hne = a := by
    have h1 := List.head?_eq_head hne
    conv at h1 => lhs; rw [hcons]
    rw [List.head?_cons] at h1
    exact (Option.some.inj h1).symm
  refine ⟨?_, ?_, ?_⟩
  · rw [horig, hhead]
  · rw [hdate, hcons, List.map_cons]
    rcases foldl_maxStep_mem a.date rest with h | h
    · rw [h]; exact List.mem_cons_self _ _
    · exact List.mem_cons_of_mem _ h
  · intro l hl
    rw [hcons] at hl
    obtain ⟨h1, h2⟩ := le_foldl_maxStep a.date rest
    rcases List.mem_cons.mp hl with h3 | h3
    · rw [h3, hdate]; exact h1
    · rw [hdate]; exact h2 l h3

/-- Concrete evaluation input for `dateIntroducedLatest`. -/
def wLines8 : List (Option BlameLine) :=
  [some ⟨"Cara <c@x>", 300, "h1"⟩, none, some ⟨"Dan <d@x>", 700, "h2"⟩,
   some ⟨"Cara <c@x>", 500, "h1"⟩]

theorem dateIntroducedLatest_witness :
    (⟨700, "Cara", 2, 3, "Cara (66.67%)", [("Cara", 2), ("Dan", 1)]⟩ :
        FileBlameStats).originalAuthor =
      extractName ((attributedLines wLines8).head (by decide)).author ∧
    (⟨700, "Cara", 2, 3, "Cara (66.67%)", [("Cara", 2), ("Dan", 1)]⟩ :
        FileBlameStats).dateIntroduced ∈
      (attributedLines wLines8).map (fun l => l.date) ∧
    ∀ l ∈ attributedLines wLines8, l.date ≤
      (⟨700, "Cara", 2, 3, "Cara (66.67%)", [("Cara", 2), ("Dan", 1)]⟩ :
        FileBlameStats).dateIntroduced :=
  dateIntroducedLatest wLines8
    ⟨700, "Cara", 2, 3, "Cara (66.67%)", [("Cara", 2), ("Dan", 1)]⟩
    (by decide) rfl

/-! ### Initial-commit stats and binary exclusion (C5, C9) -/

theorem initialStats_fst (tree : List TreeFile) (n : Nat)
    (m : List (String × FileCommitStats)) :
    (tree.foldl initialStatsStep (n, m)).1 =
      n + ((tree.filter (fun f => !(f.isBinary.getD false))).map
        (fun f => f.lines.length)).sum := by
  induction tree generalizing n m with
  | nil => simp
  | cons f rest ih =>
    rw [List.foldl_cons]
    by_cases hb : f.isBinary.getD false
    · have hstep : initialStatsStep (n, m) f = (n, m) := by
        simp [initialStatsStep, hb]
      rw [hstep, ih, List.filter_cons]
      simp [hb]
    · have hstep : initialStatsStep (n, m) f =
          (n + f.lines.length,
            aset m f.name ⟨f.lines.length, 0, f.lines.length⟩) := by
        simp [initialStatsStep, hb]
      rw [hstep, ih, List.filter_cons]
      simp [hb]
      omega

theorem initialStats_lookup_frozen (tree : List TreeFile) (n : Nat)
    (m : List (String × FileCommitStats)) (k : String)
    (h : ∀ f ∈ tree, ¬ f.isBinary.getD false = true → f.name ≠ k) :
    alookup (tree.foldl initialStatsStep (n, m)).2 k = alookup m k := by
  induction tree generalizing n m with
  | nil => rfl
  | cons f rest ih =>
    rw [List.foldl_cons]
    by_cases hb : f.isBinary.getD false
    · have hstep : initialStatsStep (n, m) f = (n, m) := by
        simp [initialStatsStep, hb]
      rw [hstep]
      exact ih n m (fun g hg => h g (List.mem_cons_of_mem f hg))
    · have hstep : initialStatsStep (n, m) f =
          (n + f.lines.length,
            aset m f.name ⟨f.lines.length, 0, f.lines.length⟩) := by
        simp [initialStatsStep, hb]
      rw [hstep,
        ih _ _ (fun g hg => h g (List.mem_cons_of_mem f hg)),
        alookup_aset_ne _ f.name k _
          (h f (List.mem_cons_self f rest) (by simp [hb]))]

theorem initialStats_lookup (tree : List TreeFile) (f : TreeFile) (n : Nat)
    (m : List (String × FileCommitStats))
    (hmem : f ∈ tree) (hnb : ¬ f.isBinary.getD false = true)
    (hnodup : (tree.map (fun g => g.name)).Nodup) :
    alookup (tree.foldl initialStatsStep (n, m)).2 f.name =
      some ⟨f.lines.length, 0, f.lines.length⟩ := by
  induction tree generalizing n m with
  | nil => cases hmem
  | cons g rest ih =>
    rw [List.map_cons, List.nodup_cons] at hnodup
    obtain ⟨hgname, hrestnodup⟩ := hnodup
    rw [List.foldl_cons]
    rcases List.mem_cons.mp hmem with h1 | h1
    · subst h1
      have hstep : initialStatsStep (n, m) f =
          (n + f.lines.length,
            aset m f.name ⟨f.lines.length, 0, f.lines.length⟩) := by
        simp only [initialStatsStep]
        rw [if_pos]
        simp [hnb]
      rw [hstep,
        initialStats_lookup_frozen rest _ _ f.name ?_,
        alookup_aset_self]
      intro x hx _
      intro hxe
      exact hgname (hxe ▸ List.mem_map_of_mem (fun y => y.name) hx)
    · exact ih _ _ h1 hrestnodup

/-- Claim C5: for a zero-parent commit whose tree holds only non-binary
files totalling L lines, GetCommitStats reports insertions = L and
deletions = 0, and gives every file per-file insertions equal to its own
line count with zero deletions. -/
theorem initialCommitBaseline (tree : List TreeFile)
    (hnb : ∀ f ∈ tree, f.isBinary.getD false = false)
    (hnodup : (tree.map (fun g => g.name)).Nodup) :
    (getCommitStatsInitial tree).insertions =
      (tree.map (fun f => f.lines.length)).sum ∧
    (getCommitStatsInitial tree).deletions = 0 ∧
    ∀ f ∈ tree, alookup (getCommitStatsInitial tree).filesChanged f.name =
      some ⟨f.lines.length, 0, f.lines.length⟩ := by
  refine ⟨?_, rfl, ?_⟩
  · show (tree.foldl initialStatsStep (0, [])).1 = _
    rw [initialStats_fst]
    have hfe : tree.filter (fun f => !(f.isBinary.getD false)) = tree := by
      apply List.filter_eq_self.mpr
      intro f hf
      simp [hnb f hf]
    rw [hfe, Nat.zero_add]
  · intro f hf
    show alookup (tree.foldl initialStatsStep (0, [])).2 f.name = _
    exact initialStats_lookup tree f 0 [] hf (by simp [hnb f hf]) hnodup

theorem initialCommitBaseline_witness :
    (getCommitStatsInitial
        [⟨"a", some false, ["x", "y"]⟩, ⟨"b", some false, ["z"]⟩]).insertions =
      (([⟨"a", some false, ["x", "y"]⟩, ⟨"b", some false, ["z"]⟩] :
          List TreeFile).map (fun f => f.lines.length)).sum ∧
    (getCommitStatsInitial
        [⟨"a", some false, ["x", "y"]⟩, ⟨"b", some false, ["z"]⟩]).deletions = 0 ∧
    ∀ f ∈ ([⟨"a", some false, ["x", "y"]⟩, ⟨"b", some false, ["z"]⟩] :
        List TreeFile),
      alookup (getCommitStatsInitial
          [⟨"a", some false, ["x", "y"]⟩, ⟨"b", some false, ["z"]⟩]).filesChanged
        f.name = some ⟨f.lines.length, 0, f.lines.length⟩ :=
  initialCommitBaseline
    [⟨"a", some false, ["x", "y"]⟩, ⟨"b", some false, ["z"]⟩]
    (by decide) (by decide)

theorem alookup_collect_not_in_paths (blame : BlameOracle)
    (paths : List String) (k : String) (init : List (String × FileData))
    (hk : k ∉ paths) :
    alookup (paths.foldl (collectBlameStep blame) init) k = alookup init k := by
  induction paths generalizing init with
  | nil => rfl
  | cons q rest ih =>
    rw [List.foldl_cons,
      ih (collectBlameStep blame init q) (fun h => hk (List.mem_cons_of_mem q h))]
    have hqk : q ≠ k := fun h => hk (h ▸ List.mem_cons_self q rest)
    unfold collectBlameStep
    split
    · rfl
    · split
      · exact alookup_aset_ne init q k _ hqk
      · rfl

/-- Claim C9: a tracked file the binary heuristic reports as binary is
excluded from the blamed file list, gets no FileSummary in the Files map,
is excluded from the initial-commit line total (which sums only the
non-binary files), and gets no per-file entry in the commit's stats. -/
theorem binaryExclusion (tree : List TreeFile) (f : TreeFile)
    (blame : BlameOracle) (hmem : f ∈ tree) (hbin : f.isBinary = some true)
    (hnodup : (tree.map (fun g => g.name)).Nodup) :
    f.name ∉ getFilePaths tree ∧
    alookup (collectBlameDataByFile blame (getFilePaths tree)) f.name = none ∧
    f ∉ tree.filter (fun g => !(g.isBinary.getD false)) ∧
    (getCommitStatsInitial tree).insertions =
      ((tree.filter (fun g => !(g.isBinary.getD false))).map
        (fun g => g.lines.length)).sum ∧
    (getCommitStatsInitial tree).deletions = 0 ∧
    alookup (getCommitStatsInitial tree).filesChanged f.name = none := by
  have hinj := List.inj_on_of_nodup_map hnodup
  have hnames : f.name ∉ getFilePaths tree := by
    intro hin
    unfold getFilePaths at hin
    rcases List.mem_map.mp hin with ⟨g, hgf, hgn⟩
    have hgt : g ∈ tree := List.mem_of_mem_filter hgf
    have hgp := List.of_mem_filter hgf
    have : g = f := hinj hgt hmem hgn
    subst this
    rw [hbin] at hgp
    simp at hgp
  refine ⟨hnames, ?_, ?_, ?_, rfl, ?_⟩
  · unfold collectBlameDataByFile
    rw [alookup_collect_not_in_paths blame _ f.name [] hnames]
    rfl
  · intro hin
    have := List.of_mem_filter hin
    rw [hbin] at this
    simp at this
  · show (tree.foldl initialStatsStep (0, [])).1 = _
    rw [initialStats_fst, Nat.zero_add]
  · show alookup (tree.foldl initialStatsStep (0, [])).2 f.name = _
    rw [initialStats_lookup_frozen tree 0 [] f.name ?_]
    · rfl
    · intro g hg hgnb hgn
      have : g = f := hinj hg hmem hgn
      subst this
      rw [hbin] at hgnb
      simp at hgnb

/-- Concrete evaluation input for `binaryExclusion`: one binary and one
text file. -/
def wTree9 : List TreeFile :=
  [⟨"img.png", some true, ["BIN"]⟩, ⟨"src.go", some false, ["x"]⟩]

theorem binaryExclusion_witness :
    (⟨"img.png", some true, ["BIN"]⟩ : TreeFile).name ∉ getFilePaths wTree9 ∧
    alookup (collectBlameDataByFile wBlame10 (getFilePaths wTree9))
      (⟨"img.png", some true, ["BIN"]⟩ : TreeFile).name = none ∧
    (⟨"img.png", some true, ["BIN"]⟩ : TreeFile) ∉
      wTree9.filter (fun g => !(g.isBinary.getD false)) ∧
    (getCommitStatsInitial wTree9).insertions =
      ((wTree9.filter (fun g => !(g.isBinary.getD false))).map
        (fun g => g.lines.length)).sum ∧
    (getCommitStatsInitial wTree9).deletions = 0 ∧
    alookup (getCommitStatsInitial wTree9).filesChanged
      (⟨"img.png", some true, ["BIN"]⟩ : TreeFile).name = none :=
  binaryExclusion wTree9 ⟨"img.png", some true, ["BIN"]⟩ wBlame10
    (by decide) rfl (by decide)

/-! ### History Walker ordering (C4) -/

instance : IsAntisymm Commit (fun a b => a.committerDate < b.committerDate) :=
  ⟨fun a b h1 h2 => absurd (lt_trans h1 h2) (lt_irrefl _)⟩

/-- Claim C4: for a repository whose commits C1..Cn have strictly
increasing committer timestamps, IterateCommits returns exactly
[C1, ..., Cn] oldest first, for every yield sequence of the log facility
satisfying the committer-time order the code requests
(`git.LogOrderCommitterTime`: a permutation of the commits, most recent
committer time first). -/
theorem iterateCommitsOldestFirst (cs logOutput : List Commit)
    (hinc : cs.Pairwise (fun a b => a.committerDate < b.committerDate))
    (hperm : logOutput.Perm cs)
    (hsorted : logOutput.Pairwise (fun a b => b.committerDate ≤ a.committerDate)) :
    iterateCommits logOutput = cs := by
  unfold iterateCommits
  have hrevperm : logOutput.reverse.Perm cs :=
    (List.reverse_perm logOutput).trans hperm
  have hrevle : logOutput.reverse.Pairwise
      (fun a b => a.committerDate ≤ b.committerDate) :=
    List.pairwise_reverse.mpr hsorted
  have hcsne : cs.Pairwise (fun a b => a.committerDate ≠ b.committerDate) :=
    hinc.imp (fun h => ne_of_lt h)
  have hrevne : logOutput.reverse.Pairwise
      (fun a b => a.committerDate ≠ b.committerDate) :=
    (List.Perm.pairwise_iff (fun h => Ne.symm h) hrevperm).mpr hcsne
  have hrevlt : logOutput.reverse.Pairwise
      (fun a b => a.committerDate < b.committerDate) :=
    (hrevle.and hrevne).imp (fun h => lt_of_le_of_ne h.1 h.2)
  exact List.eq_of_perm_of_sorted hrevperm hrevlt hinc

theorem iterateCommitsOldestFirst_witness :
    iterateCommits [⟨"c3", 30⟩, ⟨"c2", 20⟩, ⟨"c1", 10⟩] =
      [⟨"c1", 10⟩, ⟨"c2", 20⟩, ⟨"c3", 30⟩] :=
  iterateCommitsOldestFirst
    [⟨"c1", 10⟩, ⟨"c2", 20⟩, ⟨"c3", 30⟩]
    [⟨"c3", 30⟩, ⟨"c2", 20⟩, ⟨"c1", 10⟩]
    (by decide) (by decide) (by decide)

/-! ### Corrupt-cache fallback (C7) -/

/-- Claim C7: a cache entry that fails to load, or loads with missing
required metadata (empty HEAD commit SHA or zero collection timestamp),
is rejected: Collect falls through to full recomputation instead of
returning the cached data, and the rejection itself is never an error —
`collectCacheDecision` is total and yields the recompute outcome. -/
theorem corruptCacheRecompute (cacheExists : Bool) (ar : Archive)
    (h : (∃ e, loadCache ar = .error e) ∨
      (∃ d, loadCache ar = .ok d ∧
        (d.metadata.repo.commit.sha = "" ∨
          d.metadata.collector.dateCollected = 0))) :
    collectCacheDecision cacheExists ar = .recomputed := by
  unfold collectCacheDecision
  split
  · split
    · rename_i d hd
      rcases h with ⟨e, he⟩ | ⟨d2, hd2, hbad⟩
      · rw [hd] at he
        simp at he
      · rw [hd] at hd2
        have hdd : d = d2 := Except.ok.inj hd2
        subst hdd
        rw [if_pos hbad]
    · rfl
  · rfl

theorem corruptCacheRecompute_witness :
    collectCacheDecision true [("nope", [])] = .recomputed :=
  corruptCacheRecompute true [("nope", [])]
    (Or.inl ⟨"invalid cache file format: data.gob not found", rfl⟩)

end GI
